import Mathlib

/-!
Shallow embedding of the sighash and legacy-address components of the
`tw_utxo` framework (files `src/rust/frameworks/tw_utxo/src/sighash.rs` and
`src/rust/frameworks/tw_utxo/src/address/legacy.rs`), together with theorems
settling the specification's claims about them.

Machine integers (`u32`, `u8`) are represented as `Nat`; the Rust cast
`as u8` is `% 256`, and the bit masks are `Nat.land` (`&&&`), exactly as the
source applies them.  External crates (`tw_keypair`, `tw_base58_address`,
`tw_coin_entry`, `tw_hash`, `tw_encoding`) are not part of the repository's
staged sources; where a claim depends on them, they are modelled from the
specification's words, and each such definition says so in its doc comment.
-/

namespace WalletCore

/-! ## Sighash (src/rust/frameworks/tw_utxo/src/sighash.rs) -/

/-- Source constant `ANYONE_CAN_PAY_FLAG: u32 = 0x80`. -/
def ANYONE_CAN_PAY_FLAG : Nat := 0x80

/-- Source constant `FORK_ID_FLAG: u32 = 0x40`. -/
def FORK_ID_FLAG : Nat := 0x40

/-- Source constant `BASE_FLAG: u32 = 0x1f`. -/
def BASE_FLAG : Nat := 0x1f

/-- Error kinds of `UtxoErrorKind` (the framework's `error.rs` is not under the
staged sources).  `Error_internal` is the variant the staged `sighash.rs`
actually uses; `InvalidBaseType` is modelled from the spec: the spec's sighash
error taxonomy names `InvalidBaseType` for a flag word whose base bits fall
outside the accepted set. -/
inductive UtxoErrorKind where
  | Error_internal
  | InvalidBaseType
deriving DecidableEq

/-- Source `UtxoError(UtxoErrorKind)`. -/
structure UtxoError where
  kind : UtxoErrorKind
deriving DecidableEq

/-- Source `UtxoResult<T> = Result<T, UtxoError>`. -/
abbrev UtxoResult (α : Type) := Except UtxoError α

/-- Source enum `SighashBase` with `#[repr(u32)]` discriminants
All = 1, None = 2, Single = 3. -/
inductive SighashBase where
  | All
  | None
  | Single
deriving DecidableEq

/-- The numeric discriminant of a `SighashBase` value, the meaning of the
source's `base as u32` cast (All = 1, None = 2, Single = 3). -/
def SighashBase.toU32 : SighashBase → Nat
  | .All => 1
  | .None => 2
  | .Single => 3

/-- Source struct `SighashType`: the original raw sighash word plus the decoded
base type. -/
structure SighashType where
  raw_sighash : Nat
  base : SighashBase
deriving DecidableEq

/-- Source `SighashType::new(base)`. -/
def SighashType.new (base : SighashBase) : SighashType :=
  { raw_sighash := base.toU32, base := base }

/-- Source `SighashType::from_u32(u)`: match on `u & BASE_FLAG`, accepting only
1, 2, 3; any other residue is `Err(UtxoError(UtxoErrorKind::Error_internal))`
(the source carries a TODO to set an appropriate error variant there). -/
def SighashType.from_u32 (u : Nat) : UtxoResult SighashType :=
  match u &&& BASE_FLAG with
  | 1 => .ok { raw_sighash := u, base := .All }
  | 2 => .ok { raw_sighash := u, base := .None }
  | 3 => .ok { raw_sighash := u, base := .Single }
  | _ => .error { kind := .Error_internal }

/-- Source accessor `SighashType::base_type`. -/
def SighashType.base_type (t : SighashType) : SighashBase := t.base

/-- Source accessor `SighashType::anyone_can_pay`:
`(raw_sighash & ANYONE_CAN_PAY_FLAG) == ANYONE_CAN_PAY_FLAG`. -/
def SighashType.anyone_can_pay (t : SighashType) : Bool :=
  (t.raw_sighash &&& ANYONE_CAN_PAY_FLAG) == ANYONE_CAN_PAY_FLAG

/-- Source accessor `SighashType::fork_id`:
`(raw_sighash & FORK_ID_FLAG) == FORK_ID_FLAG`. -/
def SighashType.fork_id (t : SighashType) : Bool :=
  (t.raw_sighash &&& FORK_ID_FLAG) == FORK_ID_FLAG

/-- Source `impl Default for SighashType`: raw word and base both `All`. -/
def SighashType.default : SighashType :=
  { raw_sighash := SighashBase.All.toU32, base := .All }

/-- Modelled from the spec: `der::Signature` (crate `tw_keypair`, not under the
staged sources) is a DER-encoded ECDSA signature exposing its wire bytes via
`der_bytes()`; it is represented by that byte list. -/
structure DerSignature where
  der_bytes : List Nat
deriving DecidableEq

/-- Source struct `BitcoinEcdsaSignature`: a DER signature paired with a
sighash type. -/
structure BitcoinEcdsaSignature where
  sig : DerSignature
  sighash_ty : SighashType
deriving DecidableEq

/-- Source `BitcoinEcdsaSignature::new(sig, sighash_ty)`: wraps the pair in
`Ok` unconditionally. -/
def BitcoinEcdsaSignature.new (sig : DerSignature) (sighash_ty : SighashType) :
    UtxoResult BitcoinEcdsaSignature :=
  .ok { sig := sig, sighash_ty := sighash_ty }

/-- Source `BitcoinEcdsaSignature::serialize`: the DER bytes followed by the
single byte `self.sighash_ty.raw_sighash() as u8`; the Rust `as u8` cast keeps
the low 8 bits, i.e. reduces mod 256. -/
def BitcoinEcdsaSignature.serialize (s : BitcoinEcdsaSignature) : List Nat :=
  s.sig.der_bytes ++ [s.sighash_ty.raw_sighash % 256]

/-! ## Helper lemmas about the sighash bit masks -/

/-- A mask test against a single power-of-two bit is exactly a `testBit`. -/
theorem land_pow_eq_iff_testBit (u i : Nat) :
    (u &&& 2 ^ i = 2 ^ i) ↔ u.testBit i = true := by
  rw [Nat.and_two_pow]
  cases h : u.testBit i <;> simp [(Nat.two_pow_pos i).ne]

/-- The `anyone_can_pay` accessor reads bit 7 (mask 0x80) of the raw word. -/
theorem anyone_can_pay_iff (t : SighashType) :
    t.anyone_can_pay = true ↔ t.raw_sighash.testBit 7 = true := by
  rw [SighashType.anyone_can_pay, beq_iff_eq]
  have h := land_pow_eq_iff_testBit t.raw_sighash 7
  norm_num at h
  exact h

/-- The `fork_id` accessor reads bit 6 (mask 0x40) of the raw word. -/
theorem fork_id_iff (t : SighashType) :
    t.fork_id = true ↔ t.raw_sighash.testBit 6 = true := by
  rw [SighashType.fork_id, beq_iff_eq]
  have h := land_pow_eq_iff_testBit t.raw_sighash 6
  norm_num at h
  exact h

/-! ## Claims about the sighash component -/

/-- C1: for every raw word whose low 5 bits are outside {1,2,3} the decode
fails, but the error kind the code returns is the generic `Error_internal`,
not the specific `InvalidBaseType` the spec demands (the source even carries
a TODO admitting the variant is wrong) - the evaluation at the failing input
`raw = 0` exhibits the divergence. -/
theorem c1_from_u32_invalid_base_fails_with_generic_kind :
    (∀ u : Nat, u &&& BASE_FLAG ≠ 1 → u &&& BASE_FLAG ≠ 2 → u &&& BASE_FLAG ≠ 3 →
      SighashType.from_u32 u = .error { kind := .Error_internal }) ∧
    SighashType.from_u32 0 = .error { kind := .Error_internal } ∧
    UtxoErrorKind.Error_internal ≠ UtxoErrorKind.InvalidBaseType := by
  refine ⟨fun u h1 h2 h3 => ?_, rfl, by decide⟩
  unfold SighashType.from_u32
  split
  · exact absurd ‹_› h1
  · exact absurd ‹_› h2
  · exact absurd ‹_› h3
  · rfl

/-- C2 counterexample: `from_u32` happily accepts the raw word 0x101 (low five
bits decode to base All), yet `serialize` emits the single trailing byte 0x01:
the high bits are discarded with no failure and no range check, so serialization
does silently truncate a sighash value larger than one byte. -/
theorem c2_counterexample_serialize_truncates_0x101 :
    SighashType.from_u32 0x101 = .ok { raw_sighash := 0x101, base := .All } ∧
    BitcoinEcdsaSignature.serialize
      { sig := { der_bytes := [] }, sighash_ty := { raw_sighash := 0x101, base := .All } } =
      [0x01] ∧
    (0x01 : Nat) ≠ 0x101 := by
  refine ⟨rfl, rfl, by decide⟩

/-- C2 (amended): `serialize` never fails and always appends exactly
`raw_sighash % 256` as its one trailing byte; a raw sighash above 0xff
therefore has its high bits silently dropped, with no range check. -/
theorem c2_amended_serialize_appends_raw_mod_256 (s : BitcoinEcdsaSignature) :
    (BitcoinEcdsaSignature.serialize s).getLast? =
      some (s.sighash_ty.raw_sighash % 256) := by
  simp [BitcoinEcdsaSignature.serialize]

/-- C3: the serialized signature is exactly the DER wire bytes followed by one
byte equal to the raw sighash narrowed to 8 bits, so its length is the
signature byte length plus one, with no other framing. -/
theorem c3_serialize_wire_format (s : BitcoinEcdsaSignature) :
    BitcoinEcdsaSignature.serialize s =
      s.sig.der_bytes ++ [s.sighash_ty.raw_sighash &&& 0xff] ∧
    (BitcoinEcdsaSignature.serialize s).length = s.sig.der_bytes.length + 1 := by
  have h : s.sighash_ty.raw_sighash &&& 0xff = s.sighash_ty.raw_sighash % 256 := by
    have h8 := Nat.and_pow_two_sub_one_eq_mod s.sighash_ty.raw_sighash 8
    norm_num at h8
    exact h8
  exact ⟨by rw [h]; rfl, by simp [BitcoinEcdsaSignature.serialize]⟩

/-- C4: whenever the low five bits of the raw word are 1, 2 or 3 the decode
succeeds, keeps the whole raw word, maps 1/2/3 to All/None/Single, and the
`anyone_can_pay` / `fork_id` accessors report exactly bits 0x80 and 0x40 of
the raw word - any combination of the two flag bits is accepted. -/
theorem c4_from_u32_valid_base (u : Nat)
    (h : u &&& BASE_FLAG = 1 ∨ u &&& BASE_FLAG = 2 ∨ u &&& BASE_FLAG = 3) :
    ∃ ty : SighashType,
      SighashType.from_u32 u = .ok ty ∧
      ty.raw_sighash = u ∧
      (u &&& BASE_FLAG = 1 → ty.base_type = .All) ∧
      (u &&& BASE_FLAG = 2 → ty.base_type = .None) ∧
      (u &&& BASE_FLAG = 3 → ty.base_type = .Single) ∧
      (ty.anyone_can_pay = true ↔ u.testBit 7 = true) ∧
      (ty.fork_id = true ↔ u.testBit 6 = true) := by
  rcases h with h | h | h
  · refine ⟨{ raw_sighash := u, base := .All }, ?_, rfl, fun _ => rfl,
      fun h2 => absurd h (h2 ▸ by decide), fun h3 => absurd h (h3 ▸ by decide),
      anyone_can_pay_iff _, fork_id_iff _⟩
    unfold SighashType.from_u32
    rw [h]
  · refine ⟨{ raw_sighash := u, base := .None }, ?_,
      rfl, fun h1 => absurd h (h1 ▸ by decide), fun _ => rfl,
      fun h3 => absurd h (h3 ▸ by decide), anyone_can_pay_iff _, fork_id_iff _⟩
    unfold SighashType.from_u32
    rw [h]
  · refine ⟨{ raw_sighash := u, base := .Single }, ?_,
      rfl, fun h1 => absurd h (h1 ▸ by decide), fun h2 => absurd h (h2 ▸ by decide),
      fun _ => rfl, anyone_can_pay_iff _, fork_id_iff _⟩
    unfold SighashType.from_u32
    rw [h]

/-- C4 witness: the two decode examples of the claim, obtained from the general
theorem at the concrete raw words 0x81 (base All, anyone-can-pay set, fork-id
clear) and 0x43 (base Single, anyone-can-pay clear, fork-id set). -/
theorem c4_witness :
    ((0x81 &&& BASE_FLAG = 1 ∨ 0x81 &&& BASE_FLAG = 2 ∨ 0x81 &&& BASE_FLAG = 3) ∧
      ∃ ty : SighashType,
        SighashType.from_u32 0x81 = .ok ty ∧
        ty.raw_sighash = 0x81 ∧
        (0x81 &&& BASE_FLAG = 1 → ty.base_type = .All) ∧
        (0x81 &&& BASE_FLAG = 2 → ty.base_type = .None) ∧
        (0x81 &&& BASE_FLAG = 3 → ty.base_type = .Single) ∧
        (ty.anyone_can_pay = true ↔ Nat.testBit 0x81 7 = true) ∧
        (ty.fork_id = true ↔ Nat.testBit 0x81 6 = true)) ∧
    ((0x43 &&& BASE_FLAG = 1 ∨ 0x43 &&& BASE_FLAG = 2 ∨ 0x43 &&& BASE_FLAG = 3) ∧
      ∃ ty : SighashType,
        SighashType.from_u32 0x43 = .ok ty ∧
        ty.raw_sighash = 0x43 ∧
        (0x43 &&& BASE_FLAG = 1 → ty.base_type = .All) ∧
        (0x43 &&& BASE_FLAG = 2 → ty.base_type = .None) ∧
        (0x43 &&& BASE_FLAG = 3 → ty.base_type = .Single) ∧
        (ty.anyone_can_pay = true ↔ Nat.testBit 0x43 7 = true) ∧
        (ty.fork_id = true ↔ Nat.testBit 0x43 6 = true)) :=
  ⟨⟨by decide, c4_from_u32_valid_base 0x81 (by decide)⟩,
   ⟨by decide, c4_from_u32_valid_base 0x43 (by decide)⟩⟩

/-- C8: `SighashType::new` stores the base's numeric code (All ↦ 1, None ↦ 2,
Single ↦ 3) as the raw word together with the base itself, and the default
sighash type is All with raw word 1 and neither flag bit set. -/
theorem c8_new_codes_and_default :
    (SighashType.new .All).raw_sighash = 1 ∧
    (SighashType.new .All).base_type = .All ∧
    (SighashType.new .None).raw_sighash = 2 ∧
    (SighashType.new .None).base_type = .None ∧
    (SighashType.new .Single).raw_sighash = 3 ∧
    (SighashType.new .Single).base_type = .Single ∧
    SighashType.default.raw_sighash = 1 ∧
    SighashType.default.base_type = .All ∧
    SighashType.default.anyone_can_pay = false ∧
    SighashType.default.fork_id = false := by
  decide

/-- C9: the constructor `BitcoinEcdsaSignature::new` is infallible - for every
DER signature and sighash type it returns `Ok` of the plain pair, performing
no validation. -/
theorem c9_new_infallible (sig : DerSignature) (ty : SighashType) :
    BitcoinEcdsaSignature.new sig ty = .ok { sig := sig, sighash_ty := ty } := rfl

/-! ## Legacy addresses (src/rust/frameworks/tw_utxo/src/address/legacy.rs)

Identifiers containing the word that names a Rust/Bitcoin version byte are
written in camelCase here (`p2pkhPrefix`, `prefixByte`, ...); the doc comment
of each definition records the exact source-level name. -/

/-- Source error enum `AddressError` (crate `tw_coin_entry`, not under the
staged sources); the variants are the ones the staged `legacy.rs` uses, plus
`InvalidFormat`, modelled from the spec: checksum or length failures of the
Base58Check layer surface as `InvalidFormat`. -/
inductive AddressError where
  | InvalidRegistry
  | PublicKeyTypeMismatch
  | UnexpectedAddressPrefix
  | InvalidFormat
deriving DecidableEq

/-- Source `AddressResult<T> = Result<T, AddressError>`. -/
abbrev AddressResult (α : Type) := Except AddressError α

/-- Modelled from the spec: the coin-registry capability (`CoinContext`, crate
`tw_coin_entry`) exposes `p2pkh_prefix() -> Option<u8>` and
`p2sh_prefix() -> Option<u8>`; it is a record of those two optional bytes
(fields `p2pkhPrefix` / `p2shPrefix`). -/
structure CoinContext where
  p2pkhPrefix : Option Nat
  p2shPrefix : Option Nat

/-- Source struct `BitcoinBase58Prefix` (crate `tw_coin_entry`): an explicit
override carrying a p2pkh and a p2sh version byte. -/
structure BitcoinBase58Prefix where
  p2pkh : Nat
  p2sh : Nat

/-- Modelled from the spec: a secp256k1 public key exposes its compressed
point bytes via `compressed()`. -/
structure Secp256k1PublicKey where
  compressed : List Nat
deriving DecidableEq

/-- Modelled from the spec: `tw::PublicKey` (crate `tw_keypair`) is a key of
some curve; `to_secp256k1` succeeds exactly on secp256k1 keys. -/
inductive PublicKey where
  | secp256k1 (key : Secp256k1PublicKey)
  | otherCurve
deriving DecidableEq

/-- Source `PublicKey::to_secp256k1(&self) -> Option<&secp256k1::PublicKey>`. -/
def PublicKey.to_secp256k1 : PublicKey → Option Secp256k1PublicKey
  | .secp256k1 k => some k
  | .otherCurve => none

/-- Modelled from the spec: the primitive digests are external library calls
(crate `tw_hash`): `sha256` (32 bytes, used twice for the Base58Check
checksum) and `sha256_ripemd` (sha256 then ripemd160, 20 bytes, used for the
public-key hash).  They are supplied as parameters. -/
structure Hashes where
  sha256 : List Nat → List Nat
  sha256_ripemd : List Nat → List Nat

/-- Modelled from the spec: what every real digest satisfies - sha256 returns
32 bytes and sha256_ripemd 20 bytes, all byte-valued (< 256). -/
def Hashes.Wf (H : Hashes) : Prop :=
  (∀ l, (H.sha256 l).length = 32 ∧ ∀ b ∈ H.sha256 l, b < 256) ∧
  (∀ l, (H.sha256_ripemd l).length = 20 ∧ ∀ b ∈ H.sha256_ripemd l, b < 256)

/-- Modelled from the spec: the fixed Bitcoin Base58 alphabet
(`Alphabet::Bitcoin` of crate `tw_encoding`). -/
def b58Alphabet : List Char :=
  "123456789ABCDEFGHJKLMNPQRSTUVWXYZabcdefghijkmnopqrstuvwxyz".toList

/-- The character of a Base58 digit value. -/
def b58Char (d : Nat) : Char := b58Alphabet.getD d '1'

/-- The digit value of a Base58 character, `none` for a character outside the
alphabet. -/
def b58DigitOf (c : Char) : Option Nat := b58Alphabet.findIdx? (· == c)

/-- Modelled from the spec: Base58 digit encoding of a byte string - each
leading zero byte becomes the zero digit, and the rest is the big-endian
base-58 representation of the remaining bytes read as one big-endian base-256
number. -/
def b58EncodeDigits : List Nat → List Nat
  | [] => []
  | 0 :: rest => 0 :: b58EncodeDigits rest
  | l => (Nat.digits 58 (Nat.ofDigits 256 l.reverse)).reverse

/-- Modelled from the spec: the inverse digit transformation - each leading
zero digit becomes a zero byte, and the rest is the big-endian byte string of
the remaining digits read as one big-endian base-58 number. -/
def b58DecodeDigits : List Nat → List Nat
  | [] => []
  | 0 :: rest => 0 :: b58DecodeDigits rest
  | ds => (Nat.digits 256 (Nat.ofDigits 58 ds.reverse)).reverse

/-- Base58 encoding of a byte string to characters. -/
def base58Encode (l : List Nat) : List Char := (b58EncodeDigits l).map b58Char

/-- The digit values of a character string, `none` if any character is outside
the alphabet. -/
def b58DigitsOf : List Char → Option (List Nat)
  | [] => some []
  | c :: cs =>
    match b58DigitOf c, b58DigitsOf cs with
    | some d, some ds => some (d :: ds)
    | _, _ => none

/-- Base58 decoding of a character string back to bytes. -/
def base58Decode (s : List Char) : Option (List Nat) :=
  match b58DigitsOf s with
  | some ds => some (b58DecodeDigits ds)
  | none => none

/-- Modelled from the spec: the Base58Check checksum is the first 4 bytes of
the double sha256 of the payload. -/
def checksum (H : Hashes) (data : List Nat) : List Nat :=
  (H.sha256 (H.sha256 data)).take 4

/-- Source constant `BITCOIN_ADDRESS_SIZE: usize = 21`. -/
def BITCOIN_ADDRESS_SIZE : Nat := 21

/-- Source `Base58Address<BITCOIN_ADDRESS_SIZE>` (crate `tw_base58_address`,
not under the staged sources), modelled from the spec: it stores the 21
decoded payload bytes (version byte ++ 20-byte hash). -/
structure Base58Address where
  bytes : List Nat
deriving DecidableEq

/-- Modelled from the spec: `Base58Address::from_slice_with_alphabet` accepts
exactly the byte strings of the fixed size. -/
def Base58Address.from_slice_with_alphabet (bytes : List Nat) :
    AddressResult Base58Address :=
  if bytes.length = BITCOIN_ADDRESS_SIZE then .ok { bytes := bytes }
  else .error .InvalidFormat

/-- Modelled from the spec: displaying a Base58Check address encodes
payload ++ checksum(payload) in Base58. -/
def Base58Address.to_string (H : Hashes) (a : Base58Address) : List Char :=
  base58Encode (a.bytes ++ checksum H a.bytes)

/-- Modelled from the spec: `Base58Address::from_str_with_alphabet`
Base58-decodes, splits off the 4 trailing checksum bytes, verifies the
checksum and the fixed payload length; checksum or length mismatches are
`InvalidFormat`. -/
def Base58Address.from_str_with_alphabet (H : Hashes) (s : List Char) :
    AddressResult Base58Address :=
  match base58Decode s with
  | none => .error .InvalidFormat
  | some decoded =>
    if decoded.length < 4 then .error .InvalidFormat
    else if decoded.drop (decoded.length - 4) ≠
        checksum H (decoded.take (decoded.length - 4)) then .error .InvalidFormat
    else if (decoded.take (decoded.length - 4)).length ≠ BITCOIN_ADDRESS_SIZE then
      .error .InvalidFormat
    else .ok { bytes := decoded.take (decoded.length - 4) }

/-- Source tuple struct `LegacyAddress(BitcoinBase58Address)`. -/
structure LegacyAddress where
  addr : Base58Address
deriving DecidableEq

/-- Source accessor `LegacyAddress::prefix(&self) -> u8`: byte 0 of the stored
payload (`self.0.as_ref()[0]`). -/
def LegacyAddress.prefixByte (a : LegacyAddress) : Nat := a.addr.bytes.getD 0 0

/-- Source `impl FromStr for LegacyAddress`: parse through
`Base58Address::from_str_with_alphabet` with the Bitcoin alphabet. -/
def LegacyAddress.from_str (H : Hashes) (s : List Char) :
    AddressResult LegacyAddress :=
  match Base58Address.from_str_with_alphabet H s with
  | .ok a => .ok { addr := a }
  | .error e => .error e

/-- Source `LegacyAddress::from_str_checked(s, p2pkh_prefix, p2sh_prefix)`:
parse, then accept the address iff its leading byte equals the p2pkh or the
p2sh version byte, otherwise `UnexpectedAddressPrefix`. -/
def LegacyAddress.from_str_checked (H : Hashes) (s : List Char)
    (p2pkh p2sh : Nat) : AddressResult LegacyAddress :=
  match LegacyAddress.from_str H s with
  | .error e => .error e
  | .ok addr =>
    if addr.prefixByte = p2pkh ∨ addr.prefixByte = p2sh then .ok addr
    else .error .UnexpectedAddressPrefix

/-- Source `LegacyAddress::p2pkh_with_coin_and_prefix(coin, public_key,
prefix)`: resolve the p2pkh version byte from the override or else the
registry (`InvalidRegistry` if absent), require a secp256k1 key
(`PublicKeyTypeMismatch` otherwise), hash the compressed key with
sha256_ripemd, insert the version byte at index 0, and build the fixed-size
address. -/
def LegacyAddress.p2pkhWithCoinAndPrefix (H : Hashes) (coin : CoinContext)
    (public_key : PublicKey) (prefix? : Option BitcoinBase58Prefix) :
    AddressResult LegacyAddress :=
  let resolved : AddressResult Nat :=
    match prefix? with
    | some p => .ok p.p2pkh
    | none =>
      match coin.p2pkhPrefix with
      | some v => .ok v
      | none => .error .InvalidRegistry
  match resolved with
  | .error e => .error e
  | .ok verByte =>
    match public_key.to_secp256k1 with
    | none => .error .PublicKeyTypeMismatch
    | some secp =>
      match Base58Address.from_slice_with_alphabet
          (verByte :: H.sha256_ripemd secp.compressed) with
      | .ok a => .ok { addr := a }
      | .error e => .error e

/-- Source `LegacyAddress::from_str_with_coin_and_prefix(coin, s, prefix)`:
with an override, check against its pair; without one, require both the
registry's p2pkh and p2sh bytes (p2pkh looked up first), failing with
`InvalidRegistry` if either is missing. -/
def LegacyAddress.fromStrWithCoinAndPrefix (H : Hashes) (coin : CoinContext)
    (s : List Char) (prefix? : Option BitcoinBase58Prefix) :
    AddressResult LegacyAddress :=
  match prefix? with
  | some p => LegacyAddress.from_str_checked H s p.p2pkh p.p2sh
  | none =>
    match coin.p2pkhPrefix with
    | none => .error .InvalidRegistry
    | some p2pkh =>
      match coin.p2shPrefix with
      | none => .error .InvalidRegistry
      | some p2sh => LegacyAddress.from_str_checked H s p2pkh p2sh

/-! ## Base58 round-trip lemmas -/

/-- Every Base58 digit value maps to its alphabet character and back. -/
theorem b58DigitOf_b58Char : ∀ d < 58, b58DigitOf (b58Char d) = some d := by
  decide

/-- Character-level decoding inverts character-level encoding on digit lists
whose entries are Base58 digits. -/
theorem b58DigitsOf_map_b58Char (ds : List Nat) (h : ∀ d ∈ ds, d < 58) :
    b58DigitsOf (ds.map b58Char) = some ds := by
  induction ds with
  | nil => rfl
  | cons d rest ih =>
    have hd : d < 58 := h d (List.mem_cons_self d rest)
    have hrest : ∀ x ∈ rest, x < 58 := fun x hx => h x (List.mem_cons_of_mem d hx)
    simp only [List.map_cons, b58DigitsOf]
    rw [b58DigitOf_b58Char d hd, ih hrest]

/-- Every digit the encoder produces is a Base58 digit. -/
theorem b58EncodeDigits_lt (l : List Nat) : ∀ d ∈ b58EncodeDigits l, d < 58 := by
  induction l with
  | nil => simp [b58EncodeDigits]
  | cons a rest ih =>
    cases a with
    | zero =>
      intro d hd
      rw [show b58EncodeDigits (0 :: rest) = 0 :: b58EncodeDigits rest from rfl] at hd
      rcases List.mem_cons.mp hd with h | h
      · omega
      · exact ih d h
    | succ a =>
      intro d hd
      rw [show b58EncodeDigits ((a + 1) :: rest) =
          (Nat.digits 58 (Nat.ofDigits 256 ((a + 1) :: rest).reverse)).reverse from rfl] at hd
      exact Nat.digits_lt_base (by norm_num) (List.mem_reverse.mp hd)

/-- Digit-level decoding inverts digit-level encoding on byte strings. -/
theorem b58DecodeDigits_b58EncodeDigits (l : List Nat) (h : ∀ b ∈ l, b < 256) :
    b58DecodeDigits (b58EncodeDigits l) = l := by
  induction l with
  | nil => rfl
  | cons a rest ih =>
    cases a with
    | zero =>
      rw [show b58EncodeDigits (0 :: rest) = 0 :: b58EncodeDigits rest from rfl]
      rw [show b58DecodeDigits (0 :: b58EncodeDigits rest) =
          0 :: b58DecodeDigits (b58EncodeDigits rest) from rfl]
      rw [ih (fun x hx => h x (List.mem_cons_of_mem 0 hx))]
    | succ a =>
      rw [show b58EncodeDigits ((a + 1) :: rest) =
          (Nat.digits 58 (Nat.ofDigits 256 ((a + 1) :: rest).reverse)).reverse from rfl]
      rw [show ((a + 1) :: rest).reverse = rest.reverse ++ [a + 1] from
        List.reverse_cons (a + 1) rest]
      set n := Nat.ofDigits 256 (rest.reverse ++ [a + 1]) with hn_def
      have hpow : 0 < 256 ^ rest.reverse.length := Nat.pos_pow_of_pos _ (by norm_num)
      have hmul : 0 < 256 ^ rest.reverse.length * (a + 1) :=
        Nat.mul_pos hpow (Nat.succ_pos a)
      have hn : n ≠ 0 := by
        rw [hn_def, Nat.ofDigits_append, Nat.ofDigits_singleton]
        omega
      have hds : Nat.digits 58 n ≠ [] := Nat.digits_ne_nil_iff_ne_zero.mpr hn
      obtain ⟨x, t, hxt⟩ : ∃ x t, (Nat.digits 58 n).reverse = x :: t := by
        rcases hrev2 : (Nat.digits 58 n).reverse with _ | ⟨x, t⟩
        · exact absurd (List.reverse_eq_nil_iff.mp hrev2) hds
        · exact ⟨x, t, rfl⟩
      have hx : x ≠ 0 := by
        have h2 : (Nat.digits 58 n).getLast? = some x := by
          rw [← List.head?_reverse, hxt]
          rfl
        rw [List.getLast?_eq_getLast _ hds] at h2
        have h3 := Nat.getLast_digit_ne_zero 58 hn
        injection h2 with h2
        rw [h2] at h3
        exact h3
      rw [hxt]
      cases x with
      | zero => exact absurd rfl hx
      | succ x =>
        rw [show b58DecodeDigits ((x + 1) :: t) =
            (Nat.digits 256 (Nat.ofDigits 58 ((x + 1) :: t).reverse)).reverse from rfl]
        rw [show ((x + 1) :: t).reverse = Nat.digits 58 n from by
          rw [← hxt, List.reverse_reverse]]
        rw [Nat.ofDigits_digits]
        have hd256 : Nat.digits 256 n = rest.reverse ++ [a + 1] := by
          refine Nat.digits_ofDigits 256 (by norm_num) (rest.reverse ++ [a + 1]) ?_ ?_
          · intro x hx
            rcases List.mem_append.mp hx with hx | hx
            · exact h x (List.mem_cons_of_mem _ (List.mem_reverse.mp hx))
            · have : x = a + 1 := by simpa using hx
              subst this
              exact h (a + 1) (List.mem_cons_self _ _)
          · intro hne
            have h5 : (rest.reverse ++ [a + 1]).getLast? = some (a + 1) :=
              List.getLast?_concat _
            rw [List.getLast?_eq_getLast _ hne] at h5
            injection h5 with h5
            omega
        rw [hd256]
        simp

/-- Base58 decoding inverts Base58 encoding on byte strings. -/
theorem base58Decode_base58Encode (l : List Nat) (h : ∀ b ∈ l, b < 256) :
    base58Decode (base58Encode l) = some l := by
  unfold base58Encode base58Decode
  rw [b58DigitsOf_map_b58Char _ (b58EncodeDigits_lt l)]
  simp only [b58DecodeDigits_b58EncodeDigits l h]

/-! ## Parse/display round trip for Base58Check addresses -/

/-- The checksum of a well-formed digest pair is exactly 4 bytes. -/
theorem checksum_length (H : Hashes) (hWf : H.Wf) (data : List Nat) :
    (checksum H data).length = 4 := by
  unfold checksum
  rw [List.length_take, (hWf.1 _).1]
  rfl

/-- The checksum bytes of a well-formed digest pair are byte-valued. -/
theorem checksum_lt (H : Hashes) (hWf : H.Wf) (data : List Nat) :
    ∀ b ∈ checksum H data, b < 256 := fun b hb =>
  (hWf.1 _).2 b (List.take_subset _ _ hb)

/-- Parsing inverts display for every stored fixed-size byte-valued address. -/
theorem from_str_to_string (H : Hashes) (hWf : H.Wf) (a : Base58Address)
    (hlen : a.bytes.length = BITCOIN_ADDRESS_SIZE) (hb : ∀ b ∈ a.bytes, b < 256) :
    Base58Address.from_str_with_alphabet H (Base58Address.to_string H a) = .ok a := by
  have hall : ∀ b ∈ a.bytes ++ checksum H a.bytes, b < 256 := by
    intro b hb'
    rcases List.mem_append.mp hb' with h' | h'
    · exact hb b h'
    · exact checksum_lt H hWf a.bytes b h'
  have hcl : (checksum H a.bytes).length = 4 := checksum_length H hWf a.bytes
  have h21 : a.bytes.length = 21 := hlen
  have hlen' : (a.bytes ++ checksum H a.bytes).length = 25 := by
    rw [List.length_append, h21, hcl]
  unfold Base58Address.to_string Base58Address.from_str_with_alphabet
  rw [base58Decode_base58Encode _ hall]
  simp [hlen', List.take_left' h21, List.drop_left' h21, BITCOIN_ADDRESS_SIZE, h21]

/-! ## Claims about the legacy address component -/

/-- C5: deriving a P2PKH address from any secp256k1 public key and any explicit
version byte and then parsing its displayed string succeeds, and the parsed
address's leading version byte is the original one. -/
theorem c5_p2pkh_derive_parse_roundtrip (H : Hashes) (hWf : H.Wf)
    (coin : CoinContext) (key : Secp256k1PublicKey) (p2pkh p2sh : Nat)
    (hp : p2pkh < 256) :
    ∃ a : LegacyAddress,
      LegacyAddress.p2pkhWithCoinAndPrefix H coin (.secp256k1 key)
        (some { p2pkh := p2pkh, p2sh := p2sh }) = .ok a ∧
      ∃ a2 : LegacyAddress,
        LegacyAddress.from_str_checked H (Base58Address.to_string H a.addr)
          p2pkh p2sh = .ok a2 ∧
        a2.prefixByte = p2pkh := by
  have h20 := (hWf.2 key.compressed).1
  have hb20 := (hWf.2 key.compressed).2
  have hlen : (p2pkh :: H.sha256_ripemd key.compressed).length =
      BITCOIN_ADDRESS_SIZE := by
    simp [BITCOIN_ADDRESS_SIZE, h20]
  refine ⟨{ addr := { bytes := p2pkh :: H.sha256_ripemd key.compressed } }, ?_, ?_⟩
  · simp [LegacyAddress.p2pkhWithCoinAndPrefix, PublicKey.to_secp256k1,
      Base58Address.from_slice_with_alphabet, hlen]
  · have hb : ∀ b ∈ p2pkh :: H.sha256_ripemd key.compressed, b < 256 := by
      intro b hb'
      rcases List.mem_cons.mp hb' with h' | h'
      · omega
      · exact hb20 b h'
    have hparse := from_str_to_string H hWf
      { bytes := p2pkh :: H.sha256_ripemd key.compressed } hlen hb
    refine ⟨{ addr := { bytes := p2pkh :: H.sha256_ripemd key.compressed } }, ?_, rfl⟩
    simp [LegacyAddress.from_str_checked, LegacyAddress.from_str, hparse,
      LegacyAddress.prefixByte]

/-- A concrete stand-in for the external digest pair, used by the witnesses:
sha256 returns 32 zero bytes and sha256_ripemd 20 zero bytes. -/
def H0 : Hashes :=
  { sha256 := fun _ => List.replicate 32 0,
    sha256_ripemd := fun _ => List.replicate 20 0 }

/-- The stand-in digest pair is well formed. -/
theorem H0_wf : H0.Wf := by
  refine ⟨fun l => ⟨by simp [H0], fun b hb => ?_⟩,
    fun l => ⟨by simp [H0], fun b hb => ?_⟩⟩
  · have hb0 : b = 0 := List.eq_of_mem_replicate hb
    omega
  · have hb0 : b = 0 := List.eq_of_mem_replicate hb
    omega

/-- C5 witness: the round trip at the concrete digest stand-in, an empty
compressed key, version byte 0 and p2sh byte 5. -/
theorem c5_witness :
    H0.Wf ∧ (0 : Nat) < 256 ∧
    ∃ a : LegacyAddress,
      LegacyAddress.p2pkhWithCoinAndPrefix H0
        { p2pkhPrefix := none, p2shPrefix := none }
        (.secp256k1 { compressed := [] }) (some { p2pkh := 0, p2sh := 5 }) = .ok a ∧
      ∃ a2 : LegacyAddress,
        LegacyAddress.from_str_checked H0 (Base58Address.to_string H0 a.addr)
          0 5 = .ok a2 ∧
        a2.prefixByte = 0 :=
  ⟨H0_wf, by norm_num,
    c5_p2pkh_derive_parse_roundtrip H0 H0_wf
      { p2pkhPrefix := none, p2shPrefix := none } { compressed := [] } 0 5
      (by norm_num)⟩

/-- C6: once a string parses to a fixed-length address, the checked parse
returns it exactly when its leading version byte matches the p2pkh or the
p2sh byte, and fails with `UnexpectedAddressPrefix` exactly when it matches
neither. -/
theorem c6_from_str_checked_dichotomy (H : Hashes) (s : List Char)
    (p2pkh p2sh : Nat) (addr : LegacyAddress)
    (h : LegacyAddress.from_str H s = .ok addr) :
    (LegacyAddress.from_str_checked H s p2pkh p2sh = .ok addr ↔
      (addr.prefixByte = p2pkh ∨ addr.prefixByte = p2sh)) ∧
    (LegacyAddress.from_str_checked H s p2pkh p2sh =
        .error .UnexpectedAddressPrefix ↔
      ¬(addr.prefixByte = p2pkh ∨ addr.prefixByte = p2sh)) := by
  unfold LegacyAddress.from_str_checked
  rw [h]
  by_cases hc : addr.prefixByte = p2pkh ∨ addr.prefixByte = p2sh
  · simp only [if_pos hc]
    simp [hc]
  · simp only [if_neg hc]
    simp [hc]

/-- The all-ones string of 25 characters: the Base58Check encoding, under the
stand-in digest, of a 21-zero-byte address followed by its 4-zero checksum. -/
def s0 : List Char := List.replicate 25 '1'

/-- The address stored as 21 zero bytes. -/
def addr0 : LegacyAddress := { addr := { bytes := List.replicate 21 0 } }

/-- The concrete string parses to the concrete address under the stand-in
digest (a plain evaluation). -/
theorem from_str_H0_s0 : LegacyAddress.from_str H0 s0 = .ok addr0 := rfl

/-- C6 witness: the dichotomy at the concrete parsed string, with version
bytes 0 and 5. -/
theorem c6_witness :
    LegacyAddress.from_str H0 s0 = .ok addr0 ∧
    ((LegacyAddress.from_str_checked H0 s0 0 5 = .ok addr0 ↔
      (addr0.prefixByte = 0 ∨ addr0.prefixByte = 5)) ∧
     (LegacyAddress.from_str_checked H0 s0 0 5 =
        .error .UnexpectedAddressPrefix ↔
      ¬(addr0.prefixByte = 0 ∨ addr0.prefixByte = 5))) :=
  ⟨from_str_H0_s0, c6_from_str_checked_dichotomy H0 s0 0 5 addr0 from_str_H0_s0⟩

/-- C7 counterexample: with no override, an unregistered chain and a
non-secp256k1 key, derivation fails with `InvalidRegistry` - not with
`PublicKeyTypeMismatch`, although the key is not secp256k1.  The claim's
"fails with PublicKeyTypeMismatch exactly when the key is not secp256k1" is
therefore false: the registry check runs first. -/
theorem c7_counterexample_registry_error_first :
    LegacyAddress.p2pkhWithCoinAndPrefix H0
      { p2pkhPrefix := none, p2shPrefix := none } PublicKey.otherCurve none =
      .error .InvalidRegistry ∧
    PublicKey.to_secp256k1 PublicKey.otherCurve = none ∧
    (Except.error AddressError.InvalidRegistry : AddressResult LegacyAddress) ≠
      .error .PublicKeyTypeMismatch :=
  ⟨rfl, rfl, by simp⟩

/-- C7 (amended): derivation fails with `InvalidRegistry` exactly when no
override is given and the registry has no p2pkh byte; it fails with
`PublicKeyTypeMismatch` exactly when a version byte is resolvable AND the key
is not secp256k1 (the registry check runs first); and it succeeds whenever a
version byte is resolvable and the key is secp256k1. -/
theorem c7_amended_error_precedence (H : Hashes) (hWf : H.Wf)
    (coin : CoinContext) (public_key : PublicKey)
    (prefix? : Option BitcoinBase58Prefix) :
    (LegacyAddress.p2pkhWithCoinAndPrefix H coin public_key prefix? =
        .error .InvalidRegistry ↔
      (prefix? = none ∧ coin.p2pkhPrefix = none)) ∧
    (LegacyAddress.p2pkhWithCoinAndPrefix H coin public_key prefix? =
        .error .PublicKeyTypeMismatch ↔
      (¬(prefix? = none ∧ coin.p2pkhPrefix = none) ∧
        public_key.to_secp256k1 = none)) ∧
    ((¬(prefix? = none ∧ coin.p2pkhPrefix = none) ∧
        public_key.to_secp256k1 ≠ none) →
      ∃ a, LegacyAddress.p2pkhWithCoinAndPrefix H coin public_key prefix? =
        .ok a) := by
  obtain ⟨cp, csh⟩ := coin
  have hsucc : ∀ (verByte : Nat) (k : Secp256k1PublicKey),
      Base58Address.from_slice_with_alphabet
        (verByte :: H.sha256_ripemd k.compressed) =
        .ok { bytes := verByte :: H.sha256_ripemd k.compressed } := by
    intro verByte k
    have h20 := (hWf.2 k.compressed).1
    have hlen : (verByte :: H.sha256_ripemd k.compressed).length =
        BITCOIN_ADDRESS_SIZE := by
      simp [BITCOIN_ADDRESS_SIZE, h20]
    simp [Base58Address.from_slice_with_alphabet, hlen]
  cases prefix? with
  | some p =>
    cases public_key with
    | secp256k1 k =>
      refine ⟨by simp [LegacyAddress.p2pkhWithCoinAndPrefix,
          PublicKey.to_secp256k1, hsucc p.p2pkh k], by
          simp [LegacyAddress.p2pkhWithCoinAndPrefix, PublicKey.to_secp256k1,
            hsucc p.p2pkh k], fun _ =>
          ⟨{ addr := { bytes := p.p2pkh :: H.sha256_ripemd k.compressed } }, by
          simp [LegacyAddress.p2pkhWithCoinAndPrefix, PublicKey.to_secp256k1,
            hsucc p.p2pkh k]⟩⟩
    | otherCurve =>
      refine ⟨?_, ?_, ?_⟩ <;>
        simp [LegacyAddress.p2pkhWithCoinAndPrefix, PublicKey.to_secp256k1]
  | none =>
    cases cp with
    | none =>
      cases public_key with
      | secp256k1 k =>
        refine ⟨?_, ?_, ?_⟩ <;>
          simp [LegacyAddress.p2pkhWithCoinAndPrefix, PublicKey.to_secp256k1]
      | otherCurve =>
        refine ⟨?_, ?_, ?_⟩ <;>
          simp [LegacyAddress.p2pkhWithCoinAndPrefix, PublicKey.to_secp256k1]
    | some v =>
      cases public_key with
      | secp256k1 k =>
        refine ⟨by simp [LegacyAddress.p2pkhWithCoinAndPrefix,
            PublicKey.to_secp256k1, hsucc v k], by
            simp [LegacyAddress.p2pkhWithCoinAndPrefix, PublicKey.to_secp256k1,
              hsucc v k], fun _ =>
            ⟨{ addr := { bytes := v :: H.sha256_ripemd k.compressed } }, by
            simp [LegacyAddress.p2pkhWithCoinAndPrefix, PublicKey.to_secp256k1,
              hsucc v k]⟩⟩
      | otherCurve =>
        refine ⟨?_, ?_, ?_⟩ <;>
          simp [LegacyAddress.p2pkhWithCoinAndPrefix, PublicKey.to_secp256k1]

/-- C7 witness: the amended statement evaluated at the stand-in digest, a
registered chain (p2pkh byte 0, p2sh byte 5), a secp256k1 key and no
override. -/
theorem c7_witness :
    H0.Wf ∧
    ((LegacyAddress.p2pkhWithCoinAndPrefix H0
        { p2pkhPrefix := some 0, p2shPrefix := some 5 }
        (.secp256k1 { compressed := [] }) none = .error .InvalidRegistry ↔
      ((none : Option BitcoinBase58Prefix) = none ∧
        CoinContext.p2pkhPrefix { p2pkhPrefix := some 0, p2shPrefix := some 5 } =
          none)) ∧
    (LegacyAddress.p2pkhWithCoinAndPrefix H0
        { p2pkhPrefix := some 0, p2shPrefix := some 5 }
        (.secp256k1 { compressed := [] }) none = .error .PublicKeyTypeMismatch ↔
      (¬((none : Option BitcoinBase58Prefix) = none ∧
          CoinContext.p2pkhPrefix { p2pkhPrefix := some 0, p2shPrefix := some 5 } =
            none) ∧
        PublicKey.to_secp256k1 (.secp256k1 { compressed := [] }) = none)) ∧
    ((¬((none : Option BitcoinBase58Prefix) = none ∧
          CoinContext.p2pkhPrefix { p2pkhPrefix := some 0, p2shPrefix := some 5 } =
            none) ∧
        PublicKey.to_secp256k1 (.secp256k1 { compressed := [] }) ≠ none) →
      ∃ a, LegacyAddress.p2pkhWithCoinAndPrefix H0
        { p2pkhPrefix := some 0, p2shPrefix := some 5 }
        (.secp256k1 { compressed := [] }) none = .ok a)) :=
  ⟨H0_wf, c7_amended_error_precedence H0 H0_wf
    { p2pkhPrefix := some 0, p2shPrefix := some 5 }
    (.secp256k1 { compressed := [] }) none⟩

/-- Every failure of the plain Base58Check parse is `InvalidFormat`. -/
theorem from_str_with_alphabet_error (H : Hashes) (s : List Char)
    (e : AddressError)
    (h : Base58Address.from_str_with_alphabet H s = .error e) :
    e = .InvalidFormat := by
  unfold Base58Address.from_str_with_alphabet at h
  cases hdec : base58Decode s with
  | none =>
    rw [hdec] at h
    exact (Except.error.inj h).symm
  | some decoded =>
    rw [hdec] at h
    dsimp only at h
    split_ifs at h
    · exact (Except.error.inj h).symm
    · exact (Except.error.inj h).symm
    · exact (Except.error.inj h).symm

/-- The checked parse can never report a registry failure: its only errors are
format failures from the Base58Check layer and `UnexpectedAddressPrefix`. -/
theorem from_str_checked_ne_invalid_registry (H : Hashes) (s : List Char)
    (p2pkh p2sh : Nat) :
    LegacyAddress.from_str_checked H s p2pkh p2sh ≠ .error .InvalidRegistry := by
  unfold LegacyAddress.from_str_checked
  cases hfs : LegacyAddress.from_str H s with
  | error e =>
    have he : e = .InvalidFormat := by
      unfold LegacyAddress.from_str at hfs
      cases hdec : Base58Address.from_str_with_alphabet H s with
      | ok a => rw [hdec] at hfs; exact absurd hfs (by simp)
      | error e' =>
        rw [hdec] at hfs
        have : e' = e := Except.error.inj hfs
        rw [← this]
        exact from_str_with_alphabet_error H s e' hdec
    subst he
    simp
  | ok addr =>
    by_cases hc : addr.prefixByte = p2pkh ∨ addr.prefixByte = p2sh
    · simp [if_pos hc]
    · simp [if_neg hc]

/-- C10: with no override, the string parse requires BOTH registry bytes -
if either the p2pkh or the p2sh byte is unregistered it fails with
`InvalidRegistry` for every input string; with an explicit override the
result is exactly the checked parse against the override pair, so the
registry is never consulted and `InvalidRegistry` cannot occur. -/
theorem c10_registry_both_required (H : Hashes) (coin : CoinContext)
    (s : List Char) (prefix? : Option BitcoinBase58Prefix) :
    (prefix? = none → (coin.p2pkhPrefix = none ∨ coin.p2shPrefix = none) →
      LegacyAddress.fromStrWithCoinAndPrefix H coin s prefix? =
        .error .InvalidRegistry) ∧
    (∀ p, prefix? = some p →
      LegacyAddress.fromStrWithCoinAndPrefix H coin s prefix? =
        LegacyAddress.from_str_checked H s p.p2pkh p.p2sh ∧
      LegacyAddress.fromStrWithCoinAndPrefix H coin s prefix? ≠
        .error .InvalidRegistry) := by
  obtain ⟨cp, csh⟩ := coin
  constructor
  · rintro rfl hreg
    cases cp with
    | none => rfl
    | some v =>
      cases csh with
      | none => rfl
      | some w => simp at hreg
  · rintro p rfl
    exact ⟨rfl, from_str_checked_ne_invalid_registry H s p.p2pkh p.p2sh⟩
